import Mathlib

/-!
# Verification of the answer-evaluation response parser

A shallow embedding, over `List Char`, of `parseEvaluationResponse` from
`src/app/problems/[id]/page.tsx`.  The JavaScript function is a pipeline of
regular-expression operations on strings; every regex used there is free of
backreferences, so each one is translated into an explicit, executable
matching function that reproduces the backtracking engine's behaviour
(leftmost match, ordered alternation, greedy and lazy quantifiers,
zero-width lookahead and lookbehind) for that particular pattern.
JavaScript numbers produced by `parseFloat` on the captured group (which
always has the shape `\d+(\.\d+)?`) are modelled as rationals.
-/

/-- The set accepted by the JavaScript regex class `\s` (and stripped by
`String.prototype.trim`): ASCII whitespace plus the Unicode space
characters and the BOM. -/
def jsSpace (c : Char) : Bool :=
  let n := c.toNat
  n == 32 || n == 9 || n == 10 || n == 13 || n == 11 || n == 12 ||
  n == 160 || n == 5760 || (decide (8192 ≤ n) && decide (n ≤ 8202)) ||
  n == 8232 || n == 8233 || n == 8239 || n == 8287 || n == 12288 || n == 65279

/-- ASCII lower-casing, enough for the `/i` flag on the ASCII-only heading
and score patterns of the source. -/
def lowerChar (c : Char) : Char :=
  if 65 ≤ c.toNat ∧ c.toNat ≤ 90 then Char.ofNat (c.toNat + 32) else c

/-- Case-insensitive literal prefix test: `ciPref t u` holds iff the literal
`t` matches at the start of `u` under the `/i` flag. -/
def ciPref : List Char → List Char → Bool
  | [], _ => true
  | _ :: _, [] => false
  | a :: t, b :: u => (lowerChar a == lowerChar b) && ciPref t u

/-- `String.prototype.trim`: drop `jsSpace` characters from both ends. -/
def jsTrim (l : List Char) : List Char :=
  (((l.dropWhile jsSpace).reverse).dropWhile jsSpace).reverse

/-! ## Score extractor

`evaluation.match(/Score:?\s*(\d+(?:\.\d+)?)/i) ||
 evaluation.match(/(\d+(?:\.\d+)?)\s*\/\s*5/i)` -/

def scoreWord : List Char := "Score".data

/-- Attempt `/Score:?\s*(\d+(?:\.\d+)?)/i` at the current position,
returning the captured numeral.  `\s*` and `\d+` are greedy; since `\s`
and `\d` are disjoint, maximal munch is exact, and the optional fraction
`(?:\.\d+)?` is taken iff a dot followed by a digit is present. -/
def tryScoreLabel (u : List Char) : Option (List Char) :=
  if ciPref scoreWord u then
    let r0 := u.drop 5
    let r1 := match r0 with | ':' :: t => t | _ => r0
    let r2 := r1.dropWhile jsSpace
    let ds := r2.takeWhile Char.isDigit
    if ds = [] then none
    else
      match r2.drop ds.length with
      | '.' :: t =>
        let fs := t.takeWhile Char.isDigit
        if fs = [] then some ds else some (ds ++ '.' :: fs)
      | _ => some ds
  else none

/-- Leftmost match of the `Score` pattern: scan positions left to right. -/
def findScoreLabel : List Char → Option (List Char)
  | [] => none
  | c :: r =>
    match tryScoreLabel (c :: r) with
    | some g => some g
    | none => findScoreLabel r

/-- Attempt `/(\d+(?:\.\d+)?)\s*\/\s*5/i` at the current position. -/
def trySlash5 (u : List Char) : Option (List Char) :=
  let ds := u.takeWhile Char.isDigit
  if ds = [] then none
  else
    let r0 := u.drop ds.length
    let capRest : List Char × List Char :=
      match r0 with
      | '.' :: t =>
        let fs := t.takeWhile Char.isDigit
        if fs = [] then (ds, r0) else (ds ++ '.' :: fs, t.drop fs.length)
      | _ => (ds, r0)
    let r1 := capRest.2.dropWhile jsSpace
    match r1 with
    | '/' :: t =>
      match t.dropWhile jsSpace with
      | '5' :: _ => some capRest.1
      | _ => none
    | _ => none

/-- Leftmost match of the `/5` pattern. -/
def findSlash5 : List Char → Option (List Char)
  | [] => none
  | c :: r =>
    match trySlash5 (c :: r) with
    | some g => some g
    | none => findSlash5 r

/-- Numeric value of a captured `\d+` group. -/
def digitsToNat (l : List Char) : Nat :=
  l.foldl (fun a c => a * 10 + (c.toNat - 48)) 0

/-- `parseFloat` on a captured group of shape `\d+(\.\d+)?`, modelled
exactly as a rational. -/
def parseDec (l : List Char) : ℚ :=
  let ip := l.takeWhile Char.isDigit
  match l.drop ip.length with
  | '.' :: fs => (digitsToNat ip : ℚ) + (digitsToNat fs : ℚ) / ((10 : ℚ) ^ fs.length)
  | _ => (digitsToNat ip : ℚ)

/-- The score field: first pattern if it matches anywhere, else the second,
else 0 (the `||` in the source). -/
def scoreOf (l : List Char) : ℚ :=
  match findScoreLabel l with
  | some g => parseDec g
  | none =>
    match findSlash5 l with
    | some g => parseDec g
    | none => 0

/-! ## Section extractor

Each section regex has the shape
`(?:H1|...|Hk)(:?)\s*([\s\S]*?)(?=T1|...|Tm|$)` under `/i`.  The
continuation after the heading alternation can never fail (the lazy group
plus the `$` alternative of the lookahead always succeeds), so the engine
commits to the first alternative matching at the leftmost position, then
takes `:?` and `\s*` greedily, and the lazy capture ends at the first
position at or after its start where some lookahead literal matches. -/

structure SectionSpec where
  heads : List (List Char)
  colonOpt : Bool
  tails : List (List Char)

/-- Length consumed by the first heading alternative that matches at this
position, if any (ordered alternation). -/
def headLen (heads : List (List Char)) (s : List Char) : Option Nat :=
  heads.findSome? (fun h => if ciPref h s then some h.length else none)

/-- Leftmost heading match: returns the suffix just after the matched
heading alternative. -/
def findHeadSuffix (heads : List (List Char)) : List Char → Option (List Char)
  | [] =>
    match headLen heads [] with
    | some _ => some []
    | none => none
  | c :: r =>
    match headLen heads (c :: r) with
    | some n => some ((c :: r).drop n)
    | none => findHeadSuffix heads r

/-- Number of characters before the first position where some stop literal
matches (the lazy capture's extent); the whole list if none does. -/
def stopLen (tails : List (List Char)) : List Char → Nat
  | [] => 0
  | c :: r => if tails.any (fun t => ciPref t (c :: r)) then 0 else 1 + stopLen tails r

/-- Position where the lazy capture starts, relative to the suffix after
the matched heading: the greedy `:?` (when the regex has it) and the
greedy `\s*` are consumed first. -/
def capStart (sp : SectionSpec) (suf : List Char) : List Char :=
  (if sp.colonOpt then (match suf with | ':' :: r => r | _ => suf) else suf).dropWhile jsSpace

/-- The raw captured group of a section regex, or `none` when no heading
matches anywhere. -/
def extractRaw (sp : SectionSpec) (s : List Char) : Option (List Char) :=
  match findHeadSuffix sp.heads s with
  | none => none
  | some suf => some ((capStart sp suf).take (stopLen sp.tails (capStart sp suf)))

def strengthsSpec : SectionSpec :=
  ⟨["Strengths".data, "Strengths:".data], false,
   ["Areas for Improvement".data, "Improvements".data, "Areas of Improvement".data,
    "Key Points Missed".data, "Missed Points".data, "Follow-up".data, "Ideal Response".data]⟩

def improvementsSpec : SectionSpec :=
  ⟨["Areas for Improvement".data, "Improvements".data, "Areas of Improvement".data], true,
   ["Key Points Missed".data, "Missed Points".data, "Follow-up".data, "Ideal Response".data]⟩

def missedPointsSpec : SectionSpec :=
  ⟨["Key Points Missed".data, "Missed Points".data, "Missed Opportunities".data,
    "Key Points".data], true,
   ["Follow-up".data, "Ideal Response".data]⟩

def followUpSpec : SectionSpec :=
  ⟨["Follow-up Question".data, "Follow-up".data], true, ["Ideal Response".data]⟩

def idealSpec : SectionSpec :=
  ⟨["Ideal Response".data, "Example Answer".data, "Model Answer".data], true, []⟩

/-! ## List segmenter

For the three list sections the source first strips one leading bullet
marker from the whole block (`/^\s*[-•*]\s*/`), trims, then tries in
order: repeated bullet/numbered line groups, newline splitting, whole
block; filters trivial items; and falls back to the whole cleaned block
when nothing survives. -/

def isBullet (c : Char) : Bool := c == '-' || c == '•' || c == '*'

/-- Block-level `/^\s*[-•*]\s*/` replacement: the regex matches iff the
first non-space character is a bullet; it consumes the leading space run,
the bullet, and the following space run. -/
def stripLeadBulletWs (l : List Char) : List Char :=
  let r := l.dropWhile jsSpace
  match r with
  | c :: r2 => if isBullet c then r2.dropWhile jsSpace else l
  | [] => l

/-- `\d+\.` at the start of the list (used inside the items' lookahead). -/
def numDotAux : List Char → Bool
  | [] => false
  | c :: r => if c == '.' then true else c.isDigit && numDotAux r

def numDot : List Char → Bool
  | [] => false
  | c :: r => c.isDigit && numDotAux r

/-- The items' zero-width lookahead `(?=(?:\n[-•*]|\n\d+\.|\n\n|$))`. -/
def itemStop : List Char → Bool
  | [] => true
  | c :: r =>
    if c == '\n' then
      match r with
      | [] => false
      | d :: _ => isBullet d || d == '\n' || numDot r
    else false

/-- Lazy `(.+?)` followed by the lookahead: the dot does not match a
newline, so the content grows one character at a time within the current
line until the lookahead holds; fails if it never does. -/
def contentScan : List Char → Option (List Char × List Char)
  | [] => none
  | c :: r =>
    if c == '\n' then none
    else if itemStop r then some ([c], r)
    else
      match contentScan r with
      | some (cs, rest) => some (c :: cs, rest)
      | none => none

/-- Greedy `\s+` with backtracking: try the maximal space run first and
give characters back one at a time (down to one) until the rest of the
pattern matches. -/
def tryWsGo (r : List Char) : Nat → Option (Nat × List Char × List Char)
  | 0 => none
  | k + 1 =>
    match contentScan (r.drop (k + 1)) with
    | some (cs, rest) => some (k + 1, cs, rest)
    | none => tryWsGo r k

def tryWsContent (r : List Char) : Option (List Char × List Char) :=
  match tryWsGo r ((r.takeWhile jsSpace).length) with
  | some (k, cs, rest) => some (r.take k ++ cs, rest)
  | none => none

/-- `[-•*]\s+(.+?)(?=…)` at the current position (after `(?:^|\n)`). -/
def tryBulletCore : List Char → Option (List Char × List Char)
  | [] => none
  | c :: r =>
    if isBullet c then
      match tryWsContent r with
      | some (mid, rest) => some (c :: mid, rest)
      | none => none
    else none

/-- `\d+\.\s+(.+?)(?=…)` at the current position.  `\d+` is maximal: a
shorter digit run would be followed by a digit, never by the dot. -/
def tryNumberedCore (u : List Char) : Option (List Char × List Char) :=
  let ds := u.takeWhile Char.isDigit
  if ds = [] then none
  else
    match u.drop ds.length with
    | '.' :: r =>
      match tryWsContent r with
      | some (mid, rest) => some (ds ++ '.' :: mid, rest)
      | none => none
    | _ => none

/-- Global (`/g`) scan of `(?:^|\n)core`: at position 0 the `^` branch is
tried (zero-width), elsewhere a literal newline is consumed as the lead;
on failure the scan advances one character, on success it resumes right
after the match.  Full match texts are collected, as `String.match`
returns with `/g`.  Fuel decreases every step; `length + 1` never runs
out since each step consumes at least one character. -/
def scanItems (core : List Char → Option (List Char × List Char)) :
    Nat → Bool → List Char → List (List Char)
  | 0, _, _ => []
  | _ + 1, _, [] => []
  | fuel + 1, atStart, c :: r =>
    match (if atStart then core (c :: r) else none) with
    | some (m, rest) => m :: scanItems core fuel false rest
    | none =>
      match (if c == '\n' then core r else none) with
      | some (m, rest) => ('\n' :: m) :: scanItems core fuel false rest
      | none => scanItems core fuel false r

def bulletMatches (l : List Char) : List (List Char) :=
  scanItems tryBulletCore (l.length + 1) true l

def numberedMatches (l : List Char) : List (List Char) :=
  scanItems tryNumberedCore (l.length + 1) true l

/-- Item-level `/^[-•*]\s+/` replacement. -/
def stripBulletMark : List Char → List Char
  | [] => []
  | c :: r =>
    if isBullet c then
      match r with
      | d :: _ => if jsSpace d then r.dropWhile jsSpace else c :: r
      | [] => c :: r
    else c :: r

/-- Item-level `/^\d+\.\s+/` replacement. -/
def stripNumMark (l : List Char) : List Char :=
  let ds := l.takeWhile Char.isDigit
  if ds = [] then l
  else
    match l.drop ds.length with
    | '.' :: r =>
      match r with
      | d :: _ => if jsSpace d then r.dropWhile jsSpace else l
      | [] => l
    | _ => l

/-- Item-level `/^\n+/` replacement. -/
def stripLeadNl (l : List Char) : List Char := l.dropWhile (fun c => c == '\n')

/-- Per-item cleanup chain of Method 1, in source order: bullet marker,
number marker, leading newlines, trim. -/
def cleanItem (m : List Char) : List Char :=
  jsTrim (stripLeadNl (stripNumMark (stripBulletMark m)))

/-- `String.prototype.split('\n')`. -/
def splitNl : List Char → List (List Char)
  | [] => [[]]
  | c :: r =>
    if c == '\n' then [] :: splitNl r
    else
      match splitNl r with
      | line :: rest => (c :: line) :: rest
      | [] => [[c]]

/-- Per-line cleanup of Method 2: trim, bullet marker, number marker. -/
def lineClean (line : List Char) : List Char :=
  stripNumMark (stripBulletMark (jsTrim line))

/-- Methods 1–3 on the cleaned block. -/
def segmentPoints (cleaned : List Char) : List (List Char) :=
  let bm := bulletMatches cleaned
  let nm := numberedMatches cleaned
  if bm ≠ [] ∨ nm ≠ [] then (bm ++ nm).map cleanItem
  else if cleaned.contains '\n' then
    ((splitNl cleaned).map lineClean).filter (fun p => !p.isEmpty)
  else [cleaned]

/-- The two post-filters of the source, fused: drop items of length ≤ 1
and items that are exactly one bullet character. -/
def isSingleBullet : List Char → Bool
  | [c] => isBullet c
  | _ => false

def keepPoint (p : List Char) : Bool :=
  decide (1 < p.length) && !(isSingleBullet p)

/-- The whole list segmenter applied to a section's trimmed content,
including the single-item fallback. -/
def segmentList (content : List Char) : List (List Char) :=
  let cleaned := jsTrim (stripLeadBulletWs content)
  let pts := (segmentPoints cleaned).filter keepPoint
  if pts ≠ [] then pts else [stripBulletMark cleaned]

/-! ## Content sanitizers -/

/-- Follow-up: `/^\s*\*+\s*/` → `''` (first match only): matches iff the
first non-space character is an asterisk; consumes the space run, the
asterisk run, and the following space run, all maximal. -/
def stripLeadingStars (l : List Char) : List Char :=
  let r := l.dropWhile jsSpace
  match r with
  | c :: r2 => if c == '*' then ((c :: r2).dropWhile (fun d => d == '*')).dropWhile jsSpace else l
  | [] => l

/-- Follow-up: `/\s*\*+\s*$/` → `''`: the leftmost match ending at the end
of the string is the largest suffix of shape `\s*\*+\s*`, i.e. the maximal
trailing space run, the asterisk run before it (required non-empty), and
the maximal space run before that. -/
def stripTrailingStars (l : List Char) : List Char :=
  let r := l.reverse
  let r1 := r.dropWhile jsSpace
  match r1 with
  | c :: r2 =>
    if c == '*' then (((c :: r2).dropWhile (fun d => d == '*')).dropWhile jsSpace).reverse
    else l
  | [] => l

/-- Follow-up: `/^###\s+/` → `''`: exactly three hashes followed by at
least one space character; consumes the maximal space run. -/
def stripH3 (l : List Char) : List Char :=
  match l with
  | '#' :: '#' :: '#' :: c :: rest =>
    if jsSpace c then (c :: rest).dropWhile jsSpace else '#' :: '#' :: '#' :: c :: rest
  | other => other

/-- The follow-up sanitizer chain, in source order. -/
def followUpClean (content : List Char) : List Char :=
  stripH3 (jsTrim (stripTrailingStars (stripLeadingStars content)))

def fence3 : List Char := "```".data

def pyFence : List Char := "```python\n".data

/-- Ideal response rule (a): `/```\s*\n/g` → `'```python\n'`.  After the
three backticks the greedy `\s*` backtracks until a newline follows, so
the match exists iff the maximal space run after the fence contains a
newline, and it consumes that run up to and including its last newline. -/
def retagFences : Nat → List Char → List Char
  | 0, l => l
  | _ + 1, [] => []
  | fuel + 1, c :: r =>
    if fence3.isPrefixOf (c :: r) then
      let rest := r.drop 2
      let ws := rest.takeWhile jsSpace
      if ws.contains '\n' then
        let keep := (ws.reverse.takeWhile (fun d => !(d == '\n'))).length
        pyFence ++ retagFences fuel (rest.drop (ws.length - keep))
      else c :: retagFences fuel r
    else c :: retagFences fuel r

def retagAll (l : List Char) : List Char := retagFences (l.length + 1) l

/-- Ideal response rule (b): `/^```\s*$/gm` → `'```'`.  With `m`, `^`
matches at position 0 and after newlines, and the zero-width `$` matches
at the end of the string or before a newline; the greedy `\s*` (which can
span newlines) backtracks to the largest extent whose end is such a
position: the whole run when the string ends there, else everything
before the run's last newline. -/
def loneFence : Nat → Bool → List Char → List Char
  | 0, _, l => l
  | _ + 1, _, [] => []
  | fuel + 1, atLS, c :: r =>
    if atLS && fence3.isPrefixOf (c :: r) then
      let rest := r.drop 2
      let ws := rest.takeWhile jsSpace
      if rest.drop ws.length = [] then fence3 ++ loneFence fuel false (rest.drop ws.length)
      else if ws.contains '\n' then
        let keep := (ws.reverse.takeWhile (fun d => !(d == '\n'))).length
        let k := ws.length - keep - 1
        fence3 ++ loneFence fuel ((ws.take k).getLast? == some '\n') (rest.drop k)
      else c :: loneFence fuel false r
    else c :: loneFence fuel (c == '\n') r

def loneAll (l : List Char) : List Char := loneFence (l.length + 1) true l

def btick : Char := Char.ofNat 96

/-- Ideal response rule (c): `/^`{1,2}(?!`)/gm` → `''`: one or two
backticks at a line start, not followed by another backtick (so runs of
three or more are untouched). -/
def strayTicks : Nat → Bool → List Char → List Char
  | 0, _, l => l
  | _ + 1, _, [] => []
  | fuel + 1, atLS, c :: r =>
    if atLS && (c == btick) then
      match r with
      | [] => []
      | d :: r2 =>
        if d == btick then
          match r2 with
          | [] => []
          | e :: _ =>
            if e == btick then c :: strayTicks fuel false r
            else strayTicks fuel false r2
        else strayTicks fuel false r
    else c :: strayTicks fuel (c == '\n') r

def strayAll (l : List Char) : List Char := strayTicks (l.length + 1) true l

/-- Ideal response rule (d): `/(?<!\n)```/g` → `'\n```'`.  The negative
lookbehind succeeds at position 0 (there is no preceding character), so a
fence at the very start of the text also receives the inserted newline. -/
def fenceNl : Nat → Bool → List Char → List Char
  | 0, _, l => l
  | _ + 1, _, [] => []
  | fuel + 1, prevNl, c :: r =>
    if (!prevNl) && fence3.isPrefixOf (c :: r) then
      '\n' :: (fence3 ++ fenceNl fuel false (r.drop 2))
    else c :: fenceNl fuel (c == '\n') r

def fenceNlAll (l : List Char) : List Char := fenceNl (l.length + 1) false l

/-- The ideal-response sanitizer chain, in source order. -/
def idealClean (content : List Char) : List Char :=
  fenceNlAll (strayAll (loneAll (retagAll content)))

/-! ## The parser -/

structure ParsedEvaluation where
  score : ℚ
  strengths : List String
  improvements : List String
  missedPoints : List String
  followUp : String
  idealResponse : String
deriving DecidableEq

/-- A list-type section's field: default `[]` unless the heading matched
and the trimmed capture is non-empty (the source's
`match && match[1] && match[1].trim()` guard). -/
def listField (sp : SectionSpec) (s : List Char) : List String :=
  match extractRaw sp s with
  | none => []
  | some cap =>
    if jsTrim cap = [] then []
    else (segmentList (jsTrim cap)).map (fun l => String.mk l)

/-- A text-type section's field with its sanitizer. -/
def textField (clean : List Char → List Char) (sp : SectionSpec) (s : List Char) : String :=
  match extractRaw sp s with
  | none => String.mk []
  | some cap =>
    if jsTrim cap = [] then String.mk []
    else String.mk (clean (jsTrim cap))

/-- `parseEvaluationResponse` from `src/app/problems/[id]/page.tsx`. -/
def parseEvaluationResponse (s : String) : ParsedEvaluation :=
  ⟨scoreOf s.data,
   listField strengthsSpec s.data,
   listField improvementsSpec s.data,
   listField missedPointsSpec s.data,
   textField followUpClean followUpSpec s.data,
   textField idealClean idealSpec s.data⟩

/-! ## Helper lemmas -/

theorem ciPref_nil_ne (t : List Char) (h : t ≠ []) : ciPref t [] = false := by
  cases t with
  | nil => exact absurd rfl h
  | cons a r => rfl

theorem ciPref_of_take (t : List Char) :
    ∀ (u : List Char) (n : Nat), ciPref t (u.take n) = true → ciPref t u = true := by
  induction t with
  | nil => intro u n _; rfl
  | cons a t ih =>
    intro u n h
    cases u with
    | nil => simpa using h
    | cons b u2 =>
      cases n with
      | zero => simp [ciPref] at h
      | succ m =>
        simp only [List.take, ciPref, Bool.and_eq_true] at h ⊢
        exact ⟨h.1, ih u2 m h.2⟩

theorem stopLen_not_lt (tails : List (List Char)) :
    ∀ (l : List Char) (q : Nat), q < stopLen tails l →
      ∀ t ∈ tails, ciPref t (l.drop q) = false := by
  intro l
  induction l with
  | nil => intro q hq; simp [stopLen] at hq
  | cons c r ih =>
    intro q hq t ht
    by_cases hany : tails.any (fun t => ciPref t (c :: r)) = true
    · rw [stopLen, if_pos hany] at hq; omega
    · cases q with
      | zero =>
        simp only [List.drop_zero]
        rw [List.any_eq_true] at hany
        push_neg at hany
        simpa using hany t ht
      | succ q2 =>
        rw [stopLen, if_neg hany] at hq
        simpa using ih q2 (by omega) t ht

theorem mem_of_mem_dropWhile {p : Char → Bool} {l : List Char} {c : Char}
    (h : c ∈ l.dropWhile p) : c ∈ l := by
  induction l with
  | nil => simp at h
  | cons a r ih =>
    cases hpa : p a with
    | true =>
      rw [List.dropWhile_cons, if_pos hpa] at h
      exact List.mem_cons_of_mem a (ih h)
    | false =>
      rw [List.dropWhile_cons, if_neg (by simp [hpa])] at h
      exact h

theorem dropWhile_head_false {p : Char → Bool} :
    ∀ {l : List Char} {c : Char} {r : List Char}, l.dropWhile p = c :: r → p c = false := by
  intro l
  induction l with
  | nil => intro c r h; simp at h
  | cons a t ih =>
    intro c r h
    cases hpa : p a with
    | true =>
      rw [List.dropWhile_cons, if_pos hpa] at h
      exact ih h
    | false =>
      rw [List.dropWhile_cons, if_neg (by simp [hpa])] at h
      cases h
      exact hpa

theorem dropWhile_dropWhile (p : Char → Bool) (l : List Char) :
    (l.dropWhile p).dropWhile p = l.dropWhile p := by
  cases hd : l.dropWhile p with
  | nil => rfl
  | cons c r => rw [List.dropWhile_cons, if_neg (by simp [dropWhile_head_false hd])]

theorem jsTrim_head_false {l : List Char} {c : Char} {r : List Char}
    (h : jsTrim l = c :: r) : jsSpace c = false := by
  obtain ⟨w, hw⟩ :
      ((l.dropWhile jsSpace).reverse.dropWhile jsSpace) <:+ (l.dropWhile jsSpace).reverse :=
    List.dropWhile_suffix jsSpace
  have h3 := congrArg List.reverse hw.symm
  rw [List.reverse_reverse, List.reverse_append] at h3
  rw [show ((l.dropWhile jsSpace).reverse.dropWhile jsSpace).reverse = jsTrim l from rfl, h] at h3
  exact dropWhile_head_false (by simpa using h3)

theorem jsTrim_idem (l : List Char) : jsTrim (jsTrim l) = jsTrim l := by
  have h1 : (jsTrim l).dropWhile jsSpace = jsTrim l := by
    cases hd : jsTrim l with
    | nil => rfl
    | cons c r => rw [List.dropWhile_cons, if_neg (by simp [jsTrim_head_false hd])]
  show (((jsTrim l).dropWhile jsSpace).reverse.dropWhile jsSpace).reverse = jsTrim l
  rw [h1]
  show ((((l.dropWhile jsSpace).reverse.dropWhile jsSpace).reverse.reverse).dropWhile
    jsSpace).reverse = _
  rw [List.reverse_reverse, dropWhile_dropWhile]
  rfl

theorem mem_jsTrim {l : List Char} {c : Char} (h : c ∈ jsTrim l) : c ∈ l := by
  unfold jsTrim at h
  rw [List.mem_reverse] at h
  have h2 := mem_of_mem_dropWhile h
  rw [List.mem_reverse] at h2
  exact mem_of_mem_dropWhile h2

theorem stripLeadingStars_no_star {l : List Char} (h : '*' ∉ l) :
    stripLeadingStars l = l := by
  cases hd : l.dropWhile jsSpace with
  | nil => simp [stripLeadingStars, hd]
  | cons c r2 =>
    have hc : c ∈ l := mem_of_mem_dropWhile (hd ▸ List.mem_cons_self c r2)
    have hne : (c == '*') = false := by
      cases hcc : c == '*'
      · rfl
      · exact absurd (((beq_iff_eq ..).mp hcc) ▸ hc) h
    simp [stripLeadingStars, hd, hne]

theorem stripTrailingStars_no_star {l : List Char} (h : '*' ∉ l) :
    stripTrailingStars l = l := by
  cases hd : l.reverse.dropWhile jsSpace with
  | nil => simp [stripTrailingStars, hd]
  | cons c r2 =>
    have hc : c ∈ l := by
      rw [← List.mem_reverse]
      exact mem_of_mem_dropWhile (hd ▸ List.mem_cons_self c r2)
    have hne : (c == '*') = false := by
      cases hcc : c == '*'
      · rfl
      · exact absurd (((beq_iff_eq ..).mp hcc) ▸ hc) h
    simp [stripTrailingStars, hd, hne]

theorem stripH3_no_hash {l : List Char} (h : '#' ∉ l) : stripH3 l = l := by
  unfold stripH3
  split
  · exact absurd (List.mem_cons_self _ _) h
  · rfl

theorem segmentList_ne_nil (content : List Char) : segmentList content ≠ [] := by
  unfold segmentList
  simp only []
  split
  · assumption
  · simp

/-! ## Claims -/

def c1input : String :=
  "Score: 4/5\nStrengths: - Clear explanation - Good example\nAreas for Improvement: Could mention edge cases\nFollow-up: **What about concurrent writes?**"

/-- C1, counterexample: on the four-line scenario input the strengths list
is not `["Clear explanation", "Good example"]` — the strengths regex has no
`:?` after its heading alternation (and the `Strengths:` alternative is
shadowed by `Strengths`), so the colon and the spacing end up inside the
captured body, which contains no newline and so is kept as one blob. -/
theorem c1_counterexample :
    (parseEvaluationResponse c1input).strengths ≠ ["Clear explanation", "Good example"] := by
  decide

/-- C1 (amended): the scenario input parses to score 4, a single strengths
item `": - Clear explanation - Good example"`, improvements
`["Could mention edge cases"]`, empty missed points, follow-up
`"What about concurrent writes?"`, and empty ideal response. -/
theorem c1_amended_parse :
    parseEvaluationResponse c1input =
      ⟨4, [": - Clear explanation - Good example"], ["Could mention edge cases"], [],
       "What about concurrent writes?", ""⟩ := by
  decide

def c2content : String := "- a\n- b\n- c"

/-- C2, counterexample: on the section body `"- a\n- b\n- c"` the list
segmenter does not produce `["a", "b", "c"]`. -/
theorem c2_counterexample :
    (segmentList c2content.data).map String.mk ≠ ["a", "b", "c"] := by
  decide

/-- C2 (amended): the segmenter yields `["- b", "- c"]`: the block-level
strip consumes the first item's marker, so the first line matches no
bullet group, and the per-item marker strip runs before the leading
newline is removed, so the remaining items keep their `"- "` prefix. -/
theorem c2_amended_segments :
    (segmentList c2content.data).map String.mk = ["- b", "- c"] := by
  decide

theorem parseDec_45 : parseDec (("4.5").data) = 9 / 2 := by
  show (digitsToNat ['4'] : ℚ) + (digitsToNat ['5'] : ℚ) / ((10 : ℚ) ^ (['5'] : List Char).length)
      = 9 / 2
  have h3 : digitsToNat ['4'] = 4 := by decide
  have h4 : digitsToNat ['5'] = 5 := by decide
  rw [h3, h4]
  norm_num

theorem parseDec_455 : parseDec (("4.55").data) = 91 / 20 := by
  show (digitsToNat ['4'] : ℚ) +
      (digitsToNat ['5', '5'] : ℚ) / ((10 : ℚ) ^ (['5', '5'] : List Char).length) = 91 / 20
  have h3 : digitsToNat ['4'] = 4 := by decide
  have h4 : digitsToNat ['5', '5'] = 55 := by decide
  rw [h3, h4]
  norm_num

/-- C3, counterexample: `"Score: 4.55"` contains the substring
`"Score: 4.5"`, yet the extracted score is 4.55, not 4.5 — the claim's
universal quantification over all inputs containing that substring fails
(the greedy digit run keeps going past the second `5`). -/
theorem c3_counterexample :
    (("Score: 4.5").data <:+: ("Score: 4.55").data) ∧
    scoreOf (("Score: 4.55").data) ≠ 9 / 2 := by
  constructor
  · exact ⟨[], ("5").data, by decide⟩
  · have h : findScoreLabel (("Score: 4.55").data) = some (("4.55").data) := by decide
    have h2 : scoreOf (("Score: 4.55").data) = parseDec (("4.55").data) := by
      simp [scoreOf, h]
    rw [h2, parseDec_455]
    norm_num

/-- C3 (amended): the extractor is a strict priority: whenever the
`Score`-label pattern matches anywhere, its leftmost capture is the score
and the `/5` pattern is ignored; the `/5` pattern is consulted only when
the label pattern matches nowhere, and 0 is returned only when both fail.
The spec's instances hold for the exact inputs `"Score: 4.5"` and
`"3/5"`, not for every input containing those substrings. -/
theorem c3_amended_priority :
    (∀ l g, findScoreLabel l = some g → scoreOf l = parseDec g) ∧
    (∀ l g, findScoreLabel l = none → findSlash5 l = some g → scoreOf l = parseDec g) ∧
    (∀ l, findScoreLabel l = none → findSlash5 l = none → scoreOf l = 0) ∧
    scoreOf (("Score: 4.5").data) = 9 / 2 ∧ scoreOf (("3/5").data) = 3 := by
  refine ⟨fun l g h => by simp [scoreOf, h],
    fun l g h1 h2 => by simp [scoreOf, h1, h2],
    fun l h1 h2 => by simp [scoreOf, h1, h2], ?_, by decide⟩
  have h : findScoreLabel (("Score: 4.5").data) = some (("4.5").data) := by decide
  have h2 : scoreOf (("Score: 4.5").data) = parseDec (("4.5").data) := by simp [scoreOf, h]
  rw [h2, parseDec_45]

/-- C3 witness: the priority rules applied at the spec's two concrete
inputs. -/
theorem c3_amended_priority_witness :
    scoreOf (("Score: 4.5").data) = parseDec (("4.5").data) ∧
    scoreOf (("3/5").data) = parseDec (("3").data) :=
  ⟨c3_amended_priority.1 (("Score: 4.5").data) (("4.5").data) (by decide),
   c3_amended_priority.2.1 (("3/5").data) (("3").data) (by decide) (by decide)⟩

/-- C4, counterexample: in `"Strengths: x Model Answer: y"` the strengths
body captures `": x Model Answer: y"`, which contains `"Model Answer"` —
an accepted heading variant of the later Ideal Response section — because
the strengths stop-list only contains `"Ideal Response"`, not the
`"Example Answer"`/`"Model Answer"` synonyms (and likewise omits
`"Key Points"`, `"Missed Opportunities"` and `"Follow-up Question"`). -/
theorem c4_counterexample :
    extractRaw strengthsSpec (("Strengths: x Model Answer: y").data)
      = some ((": x Model Answer: y").data) ∧
    ciPref (("Model Answer").data) (((": x Model Answer: y").data).drop 4) = true := by
  constructor
  · decide
  · decide

/-- C4 (amended): a section's capture extends to the first occurrence of
one of the literals in that section's fixed stop-list (or the end of
text), so the captured body never contains a stop-list literal as a
(case-insensitive) substring; the stop-lists are only a subset of the
later sections' accepted heading variants, so omitted variants can still
appear in an earlier body. -/
theorem c4_amended_stoplist (sp : SectionSpec) (s cap : List Char)
    (hne : ∀ t ∈ sp.tails, t ≠ [])
    (h : extractRaw sp s = some cap) :
    ∀ t ∈ sp.tails, ∀ q, ciPref t (cap.drop q) = false := by
  rcases hf : findHeadSuffix sp.heads s with _ | suf
  · rw [extractRaw, hf] at h
    exact absurd h (by simp)
  · rw [extractRaw, hf] at h
    simp only [Option.some.injEq] at h
    subst h
    intro t ht q
    rw [List.drop_take]
    by_cases hq : q < stopLen sp.tails (capStart sp suf)
    · cases hc :
          ciPref t (((capStart sp suf).drop q).take (stopLen sp.tails (capStart sp suf) - q)) with
      | false => rfl
      | true =>
        exfalso
        have h2 := ciPref_of_take t ((capStart sp suf).drop q) _ hc
        have h3 := stopLen_not_lt sp.tails (capStart sp suf) q hq t ht
        rw [h2] at h3
        exact Bool.noConfusion h3
    · have hz : stopLen sp.tails (capStart sp suf) - q = 0 := by omega
      rw [hz, List.take_zero]
      exact ciPref_nil_ne t (hne t ht)

/-- C4 witness: the stop-list property applied to a concrete strengths
extraction. -/
theorem c4_amended_stoplist_witness :
    ciPref (("Improvements").data) ((": hi").data) = false :=
  c4_amended_stoplist strengthsSpec (("Strengths: hi").data) ((": hi").data)
    (by decide) (by decide) (("Improvements").data) (by decide) 0

def c5scenario : String := "```\ncode\n```"

def c5closer : String := "```\ncode\n```\nmore"

/-- C5, counterexample: the retag rule `/```\s*\n/g` does not distinguish
openers from closers: in `"```\ncode\n```\nmore"` the closing fence is
also followed by a newline and also receives the `python` tag, so the
claim that closing fences are never retagged fails (the leading newline
comes from the later fence-on-own-line rule, which fires at position 0). -/
theorem c5_counterexample :
    String.mk (idealClean c5closer.data) = "\n```python\ncode\n```python\nmore" := by
  decide

/-- C5 (amended): every triple backtick followed by a space run containing
a newline is retagged, whether it opens or closes a fence; fences already
carrying a language tag are untouched; and on the spec's scenario the
opening fence is retagged (with a newline additionally inserted before
it, since the fence sits at the start of the text). -/
theorem c5_amended_retag :
    String.mk (idealClean c5scenario.data) = "\n```python\ncode\n```" ∧
    String.mk (retagAll c5closer.data) = "```python\ncode\n```python\nmore" ∧
    String.mk (retagAll (("```python\nx").data)) = "```python\nx" := by
  refine ⟨by decide, by decide, by decide⟩

/-- C6: for each list-type section, when the heading matched and the
trimmed capture is non-empty the resulting item list is non-empty — the
post-filter may discard everything, but the fallback then contributes a
single item. -/
theorem c6_nonempty_items (s : String) (cap : List Char) :
    (extractRaw strengthsSpec s.data = some cap → jsTrim cap ≠ [] →
      (parseEvaluationResponse s).strengths ≠ []) ∧
    (extractRaw improvementsSpec s.data = some cap → jsTrim cap ≠ [] →
      (parseEvaluationResponse s).improvements ≠ []) ∧
    (extractRaw missedPointsSpec s.data = some cap → jsTrim cap ≠ [] →
      (parseEvaluationResponse s).missedPoints ≠ []) := by
  refine ⟨fun h1 h2 => ?_, fun h1 h2 => ?_, fun h1 h2 => ?_⟩ <;>
    · show listField _ s.data ≠ []
      simp only [listField, h1]
      rw [if_neg h2]
      simp [segmentList_ne_nil]

/-- C6 witness: the spec's `"*"`-only section — the post-filter discards
the lone asterisk and the fallback still yields one item. -/
theorem c6_nonempty_items_witness :
    (parseEvaluationResponse ("Missed Points: *")).missedPoints ≠ [] :=
  (c6_nonempty_items ("Missed Points: *") (("*").data)).2.2 (by decide) (by decide)

/-- C7, counterexample: the follow-up cleanup is not idempotent — on
`"* *x"` the first pass strips only the first asterisk run (with the
space after it), leaving `"*x"`, and a second pass strips again. -/
theorem c7_counterexample :
    followUpClean (followUpClean (("* *x").data)) ≠ followUpClean (("* *x").data) := by
  decide

/-- C7 (amended): the sanitizer rules are not idempotent in general — a
pass can expose a fresh leading asterisk run (follow-up) or move a fence
in front of a newline so that the retag rule fires on a second pass
(ideal response).  The follow-up cleanup is idempotent on inputs free of
`'*'` and `'#'`, where it reduces to trimming. -/
theorem c7_amended_conditional_idempotent (l : List Char)
    (hstar : '*' ∉ l) (hhash : '#' ∉ l) :
    followUpClean (followUpClean l) = followUpClean l := by
  have key : ∀ m : List Char, '*' ∉ m → '#' ∉ m → followUpClean m = jsTrim m := by
    intro m h1 h2
    rw [followUpClean, stripLeadingStars_no_star h1, stripTrailingStars_no_star h1,
      stripH3_no_hash (fun hm => h2 (mem_jsTrim hm))]
  rw [key l hstar hhash,
    key (jsTrim l) (fun hm => hstar (mem_jsTrim hm)) (fun hm => hhash (mem_jsTrim hm)),
    jsTrim_idem]

/-- C7 witness: conditional idempotence at a concrete asterisk-free,
hash-free input. -/
theorem c7_amended_conditional_idempotent_witness :
    followUpClean (followUpClean (("  a b  ").data)) = followUpClean (("  a b  ").data) :=
  c7_amended_conditional_idempotent (("  a b  ").data) (by decide) (by decide)

/-- C8: the empty input produces exactly the all-default record. -/
theorem c8_empty_input :
    parseEvaluationResponse ("") = ⟨0, [], [], [], "", ""⟩ := by
  decide

/-- C9: the parser is total by construction (it is a plain function on
strings), and it degrades gracefully: whenever a section's heading matches
nowhere the corresponding field is its default (empty list or empty
string), and the score is 0 when neither score pattern matches. -/
theorem c9_graceful_defaults (s : String) :
    (findHeadSuffix strengthsSpec.heads s.data = none →
      (parseEvaluationResponse s).strengths = []) ∧
    (findHeadSuffix improvementsSpec.heads s.data = none →
      (parseEvaluationResponse s).improvements = []) ∧
    (findHeadSuffix missedPointsSpec.heads s.data = none →
      (parseEvaluationResponse s).missedPoints = []) ∧
    (findHeadSuffix followUpSpec.heads s.data = none →
      (parseEvaluationResponse s).followUp = "") ∧
    (findHeadSuffix idealSpec.heads s.data = none →
      (parseEvaluationResponse s).idealResponse = "") ∧
    (findScoreLabel s.data = none → findSlash5 s.data = none →
      (parseEvaluationResponse s).score = 0) := by
  refine ⟨fun h => ?_, fun h => ?_, fun h => ?_, fun h => ?_, fun h => ?_, fun h1 h2 => ?_⟩
  · show listField _ s.data = []
    simp [listField, extractRaw, h]
  · show listField _ s.data = []
    simp [listField, extractRaw, h]
  · show listField _ s.data = []
    simp [listField, extractRaw, h]
  · show textField _ _ s.data = ""
    simp only [textField, extractRaw, h]
  · show textField _ _ s.data = ""
    simp only [textField, extractRaw, h]
  · show scoreOf s.data = 0
    simp [scoreOf, h1, h2]

/-- C9 witness: a heading-free input leaves every field at its default. -/
theorem c9_graceful_defaults_witness :
    (parseEvaluationResponse ("nothing here")).strengths = [] ∧
    (parseEvaluationResponse ("nothing here")).improvements = [] ∧
    (parseEvaluationResponse ("nothing here")).missedPoints = [] ∧
    (parseEvaluationResponse ("nothing here")).followUp = "" ∧
    (parseEvaluationResponse ("nothing here")).idealResponse = "" ∧
    (parseEvaluationResponse ("nothing here")).score = 0 :=
  ⟨(c9_graceful_defaults ("nothing here")).1 (by decide),
   (c9_graceful_defaults ("nothing here")).2.1 (by decide),
   (c9_graceful_defaults ("nothing here")).2.2.1 (by decide),
   (c9_graceful_defaults ("nothing here")).2.2.2.1 (by decide),
   (c9_graceful_defaults ("nothing here")).2.2.2.2.1 (by decide),
   (c9_graceful_defaults ("nothing here")).2.2.2.2.2 (by decide) (by decide)⟩

def c10input : String := "Missed Points: - - y\n1. ab"

/-- C10, counterexample: in this missed-points section both the bullet
scan and the numbered scan produce items, yet the returned list is only
`["1. ab"]` — the bullet-derived item cleans to the single character
`"y"`, which the post-filter discards, so not all bullet-matched items
are returned. -/
theorem c10_counterexample :
    bulletMatches (jsTrim (stripLeadBulletWs (("- - y\n1. ab").data))) ≠ [] ∧
    numberedMatches (jsTrim (stripLeadBulletWs (("- - y\n1. ab").data))) ≠ [] ∧
    (parseEvaluationResponse c10input).missedPoints = ["1. ab"] := by
  refine ⟨by decide, by decide, by decide⟩

/-- C10 (amended): when both scans find items, the segmenter's candidate
list is exactly the cleaned bullet matches followed by the cleaned
numbered matches — bullets first, not document order — and the result is
that list after the post-filter, or the single-item fallback when the
filter discards everything. -/
theorem c10_amended_concat (content : List Char)
    (hb : bulletMatches (jsTrim (stripLeadBulletWs content)) ≠ [])
    (_hn : numberedMatches (jsTrim (stripLeadBulletWs content)) ≠ []) :
    segmentList content =
      (if ((bulletMatches (jsTrim (stripLeadBulletWs content)) ++
            numberedMatches (jsTrim (stripLeadBulletWs content))).map cleanItem).filter
              keepPoint ≠ [] then
        ((bulletMatches (jsTrim (stripLeadBulletWs content)) ++
          numberedMatches (jsTrim (stripLeadBulletWs content))).map cleanItem).filter keepPoint
      else [stripBulletMark (jsTrim (stripLeadBulletWs content))]) := by
  unfold segmentList segmentPoints
  simp only []
  rw [if_pos (Or.inl hb)]

/-- C10 witness: on a document-ordered mixed list the bullet item comes
out first. -/
theorem c10_amended_concat_witness :
    segmentList (("1. one\n- two\n2. three").data) =
      ((bulletMatches (jsTrim (stripLeadBulletWs (("1. one\n- two\n2. three").data))) ++
        numberedMatches (jsTrim (stripLeadBulletWs (("1. one\n- two\n2. three").data)))).map
          cleanItem).filter keepPoint := by
  rw [c10_amended_concat (("1. one\n- two\n2. three").data) (by decide) (by decide)]
  decide
